import Mathlib

/-!
# Verification of the `ini.h` single-header INI parser

A shallow embedding of `src/ini.h` (snarmph/ini).  C string views
(`inistrv_t`) are modelled by their content as `List Char`; the parser's
input stream (`ini__istream_t`), whose operations only ever read between
`cur` and `start + len`, is modelled by the remaining input, also a
`List Char`.  Machine integers that matter (`strtoull` / `strtoll`
results) are modelled as `Nat` / `Int` with explicit saturation bounds;
the platform is taken to be LP64, where `LONG_MAX = LLONG_MAX` and
`LONG_MIN = LLONG_MIN` (as used by `ini_as_int`).  Buffer-writing
functions (`ini_to_str`, `ini__rem_escaped`) additionally return the
sequence of (index, byte) stores they perform so that bounds properties
can be stated.

The libc helpers the source delegates to (`isspace`, `strncmp`,
`strtoull`, `strtoll`, `strtod`) are modelled after the C99 standard
("C" locale).  `strtod` results live in `CDouble`, which records exact
decimal values as rationals plus the `HUGE_VAL` overflow sentinels and
NaN; rounding of in-range finite results is not modelled, which is
irrelevant to the properties proved here (they only concern zero results
and the sentinels).  The numeric accessors call
`strtoull(value->value.buf, NULL, 0)` (and likewise `strtoll`,
`strtod`) on the NUL-terminated document buffer starting at the view,
which can read PAST the view's end; they are therefore modelled with an
explicit extra argument `rest`, the bytes of the document's text that
follow the view, and parse `view ++ rest`.  A NUL byte never extends a
subject sequence (it is not whitespace, a sign, a digit, a prefix or an
`inf`/`nan` letter), so parsing the remainder list is equivalent to
C-string parsing that stops at a terminator.
-/

/-- C `isspace` in the "C" locale: space and the five control
whitespace characters 9..13 (`\t\n\v\f\r`). -/
def c_isspace (c : Char) : Bool :=
  c.toNat = 32 || (9 ≤ c.toNat && c.toNat ≤ 13)

/-- `strv__is_empty`: `view.len == 0`. -/
def strv__is_empty (view : List Char) : Bool :=
  view.isEmpty

/-- The sign of `memcmp` over equal-length byte runs (unsigned byte
comparison, first difference decides). -/
def c_memcmp : List Char → List Char → Int
  | [], _ => 0
  | _, [] => 0
  | a :: as, b :: bs =>
    if a.toNat < b.toNat then -1
    else if b.toNat < a.toNat then 1
    else c_memcmp as bs

/-- `strv__cmp`: shorter view first, then `memcmp` of the content. -/
def strv__cmp (a b : List Char) : Int :=
  if a.length < b.length then -1
  else if b.length < a.length then 1
  else c_memcmp a b

/-- `strv__from_str`: a view of a whole C string (content-level identity
in this embedding). -/
def strv__from_str (s : List Char) : List Char := s

/-- `strv__trim`: drop the run of leading whitespace, except that when
that would leave nothing (an all-whitespace view) the ORIGINAL view is
returned; otherwise additionally shorten by the run of trailing
whitespace of the original view. -/
def strv__trim (view : List Char) : List Char :=
  if strv__is_empty view then view
  else
    let out := view.dropWhile c_isspace
    if strv__is_empty out then view
    else out.take (out.length - (view.reverse.takeWhile c_isspace).length)

/-- `istr__is_finished`: the cursor has reached the end. -/
def istr__is_finished (s : List Char) : Bool := s.isEmpty

/-- `istr__skip_whitespace`: advance past `isspace` bytes. -/
def istr__skip_whitespace (s : List Char) : List Char := s.dropWhile c_isspace

/-- `istr__ignore`: advance until the delimiter (or the end); the
delimiter itself is not consumed. -/
def istr__ignore (s : List Char) (delim : Char) : List Char :=
  s.dropWhile (fun c => c != delim)

/-- `istr__skip`: advance one byte, no-op when finished. -/
def istr__skip (s : List Char) : List Char := s.drop 1

/-- `istr__get_view`: the bytes up to the delimiter (exclusive), paired
with the remaining stream, whose cursor is left at the delimiter. -/
def istr__get_view (s : List Char) (delim : Char) : List Char × List Char :=
  (s.takeWhile (fun c => c != delim), s.dropWhile (fun c => c != delim))

/-- `inivalue_t`: a key view and a value view. -/
structure IniValue where
  key : List Char
  value : List Char
deriving DecidableEq

/-- `initable_t`: a name view and the entry sequence. -/
structure IniTable where
  name : List Char
  values : List IniValue
deriving DecidableEq

/-- `ini_t`: the owned text (none when parsing failed / input was empty)
and the table sequence. -/
structure Ini where
  text : Option (List Char)
  tables : List IniTable
deriving DecidableEq

/-- `iniopts_t`. -/
structure IniOpts where
  merge_duplicate_tables : Bool
  override_duplicate_keys : Bool
  key_value_divider : Char
deriving DecidableEq

/-- `ini__default_opts`: `{false, false, '='}`. -/
def ini__default_opts : IniOpts :=
  { merge_duplicate_tables := false
    override_duplicate_keys := false
    key_value_divider := '=' }

/-- `ini__set_default_opts`: start from the defaults and overwrite each
field only when the caller's value is truthy / non-zero. -/
def ini__set_default_opts (options : Option IniOpts) : IniOpts :=
  match options with
  | none => ini__default_opts
  | some o =>
    { merge_duplicate_tables :=
        if o.merge_duplicate_tables then o.merge_duplicate_tables
        else ini__default_opts.merge_duplicate_tables
      override_duplicate_keys :=
        if o.override_duplicate_keys then o.override_duplicate_keys
        else ini__default_opts.override_duplicate_keys
      key_value_divider :=
        if o.key_value_divider ≠ Char.ofNat 0 then o.key_value_divider
        else ini__default_opts.key_value_divider }

/-- `ini__find_value`'s search loop: the first entry whose key compares
equal. -/
def ini__find_value_in (values : List IniValue) (key : List Char) : Option IniValue :=
  match values with
  | [] => none
  | v :: rest => if strv__cmp v.key key = 0 then some v else ini__find_value_in rest key

/-- `ini__find_value`: `NULL` for an empty key, else the first matching
entry of the table. -/
def ini__find_value (table : IniTable) (key : List Char) : Option IniValue :=
  if strv__is_empty key then none else ini__find_value_in table.values key

/-- Position of the first matching entry, used to state where
`ini__find_value`'s returned pointer points. -/
def ini__find_value_idx (values : List IniValue) (key : List Char) : Option Nat :=
  match values with
  | [] => none
  | v :: rest =>
    if strv__cmp v.key key = 0 then some 0
    else (ini__find_value_idx rest key).map (· + 1)

/-- `ini__find_table`'s search loop, as the index of the first table
whose name compares equal. -/
def ini__find_table_idx (tables : List IniTable) (name : List Char) : Option Nat :=
  match tables with
  | [] => none
  | t :: rest =>
    if strv__cmp t.name name = 0 then some 0
    else (ini__find_table_idx rest name).map (· + 1)

/-- `ini__find_table`: `NULL` for an empty name, else the first table
with that name. -/
def ini__find_table (ctx : Ini) (name : List Char) : Option IniTable :=
  if strv__is_empty name then none
  else (ini__find_table_idx ctx.tables name).bind (fun i => ctx.tables[i]?)

/-- The inline-comment scan of `ini__add_value`: cut the value at the
first `#` or `;` whose immediately preceding byte (tracked in `prev`) is
not a backslash. -/
def ini__cut_comment_aux (prev : Option Char) : List Char → List Char
  | [] => []
  | c :: rest =>
    if (c = '#' ∨ c = ';') ∧ prev ≠ some '\\' then []
    else c :: ini__cut_comment_aux (some c) rest

/-- The inline-comment scan of `ini__add_value`, starting with no
previous byte. -/
def ini__cut_comment (v : List Char) : List Char := ini__cut_comment_aux none v

/-- The override write `new_val->value = val` through the pointer
returned by `ini__find_value`: replace the value of the first entry
whose key matches, leaving everything else in place. -/
def ini__override_value (values : List IniValue) (key val : List Char) : List IniValue :=
  match values with
  | [] => []
  | v :: rest =>
    if strv__cmp v.key key = 0 then { v with value := val } :: rest
    else v :: ini__override_value rest key val

/-- `ini__add_value`: read the key up to the divider and trim it, skip
the divider, read the value up to the newline and trim it; bail out on
an empty key; cut the value at the first unescaped comment marker; skip
the newline unless at end of input; then either overwrite the first
duplicate (override policy) or append a new entry.  Returns the updated
table and the remaining stream. -/
def ini__add_value (table : IniTable) (s : List Char) (options : IniOpts) :
    IniTable × List Char :=
  let kpair := istr__get_view s options.key_value_divider
  let key := strv__trim kpair.1
  let s1 := istr__skip kpair.2
  let vpair := istr__get_view s1 '\n'
  let val0 := strv__trim vpair.1
  let s2 := vpair.2
  if strv__is_empty key then (table, s2)
  else
    let val := ini__cut_comment val0
    let s3 := if istr__is_finished s2 then s2 else istr__skip s2
    if options.override_duplicate_keys ∧ (ini__find_value table key).isSome then
      ({ table with values := ini__override_value table.values key val }, s3)
    else
      ({ table with values := table.values ++ [⟨key, val⟩] }, s3)

/-- The body loop of `ini__add_table`: a bare `\n`/`\r` ends the body, a
comment is discarded up to (not including) the newline, anything else is
a key-value line added to table number `ti`.  `fuel` bounds the number
of iterations; callers pass one more than the remaining length, which
the loop (consuming at least one byte per iteration) never exhausts. -/
def ini__table_body (fuel : Nat) (tables : List IniTable) (ti : Nat) (s : List Char)
    (options : IniOpts) : List IniTable × List Char :=
  match fuel with
  | 0 => (tables, s)
  | fuel + 1 =>
    match s with
    | [] => (tables, s)
    | c :: _ =>
      if c = '\n' ∨ c = '\r' then (tables, s)
      else if c = '#' ∨ c = ';' then
        ini__table_body fuel tables ti (istr__ignore s '\n') options
      else
        let t := tables.getD ti ⟨[], []⟩
        let r := ini__add_value t s options
        ini__table_body fuel (tables.set ti r.1) ti r.2 options

/-- `ini__add_table`: skip `[`, read the name up to `]`, skip `]`; an
empty name returns at once (no table, stream left right after the `]`);
otherwise reuse the first same-named table (merge policy) or append a
fresh one, discard the rest of the header line, and run the body loop on
that table. -/
def ini__add_table (tables : List IniTable) (s : List Char) (options : IniOpts) :
    List IniTable × List Char :=
  let s1 := istr__skip s
  let npair := istr__get_view s1 ']'
  let name := npair.1
  let s2 := istr__skip npair.2
  if strv__is_empty name then (tables, s2)
  else
    let found := if options.merge_duplicate_tables then ini__find_table_idx tables name else none
    let tpair : List IniTable × Nat :=
      match found with
      | some i => (tables, i)
      | none => (tables ++ [⟨name, []⟩], tables.length)
    let s3 := istr__skip (istr__ignore s2 '\n')
    ini__table_body (s3.length + 1) tpair.1 tpair.2 s3 options

/-- The top-level loop of `ini__parse_internal`: dispatch on the current
byte (`[` table header, `#`/`;` comment, otherwise a key-value line into
the first table, the root), then skip whitespace.  `fuel` bounds the
iterations; the initial call passes one more than the input length,
which the loop (consuming at least one byte per iteration) never
exhausts. -/
def ini__parse_loop (fuel : Nat) (tables : List IniTable) (s : List Char)
    (options : IniOpts) : List IniTable :=
  match fuel with
  | 0 => tables
  | fuel + 1 =>
    match s with
    | [] => tables
    | c :: _ =>
      let step : List IniTable × List Char :=
        if c = '[' then ini__add_table tables s options
        else if c = '#' ∨ c = ';' then (tables, istr__ignore s '\n')
        else
          let t := tables.getD 0 ⟨[], []⟩
          let r := ini__add_value t s options
          (tables.set 0 r.1, r.2)
      ini__parse_loop fuel step.1 (istr__skip_whitespace step.2) options

/-- `ini__parse_internal`: a NULL text yields the empty document; other
texts get the root table (named `root`) pushed first and then the main
loop run over the whole text. -/
def ini__parse_internal (text : Option (List Char)) (options : Option IniOpts) : Ini :=
  match text with
  | none => { text := none, tables := [] }
  | some t =>
    let opts := ini__set_default_opts options
    let root : IniTable := { name := ['r', 'o', 'o', 't'], values := [] }
    { text := some t, tables := ini__parse_loop (t.length + 1) [root] t opts }

/-- `ini__strdup`: NULL for a NULL source or zero length, else a copy of
the `len` bytes. -/
def ini__strdup (src : List Char) : Option (List Char) :=
  if src.length = 0 then none else some src

/-- `ini_parse_str`: duplicate the string (NULL when empty) and run the
internal parser on it. -/
def ini_parse_str (s : List Char) (options : Option IniOpts) : Ini :=
  ini__parse_internal (ini__strdup s) options

/-- `ini_parse_buf`: identical to `ini_parse_str` in this embedding,
with the explicit length equal to the list length. -/
def ini_parse_buf (s : List Char) (options : Option IniOpts) : Ini :=
  ini__parse_internal (ini__strdup s) options

/-- `ini_get_table`: a NULL name returns `ctx->tables`, the pointer to
the first table (NULL when there are none); otherwise a name lookup. -/
def ini_get_table (ctx : Ini) (name : Option (List Char)) : Option IniTable :=
  match name with
  | none => ctx.tables.head?
  | some n => ini__find_table ctx n

/-- `ini_get`: NULL for a NULL table, else `ini__find_value`. -/
def ini_get (ctx : Option IniTable) (key : List Char) : Option IniValue :=
  match ctx with
  | none => none
  | some t => ini__find_value t (strv__from_str key)

/-- C `strncmp` on NUL-terminated strings, comparing at most `n` bytes
as unsigned chars; a missing byte reads as the terminating NUL. -/
def c_strncmp (a b : List Char) (n : Nat) : Int :=
  match n with
  | 0 => 0
  | n + 1 =>
    let ca := a.headD (Char.ofNat 0)
    let cb := b.headD (Char.ofNat 0)
    if ca.toNat < cb.toNat then -1
    else if cb.toNat < ca.toNat then 1
    else if ca = Char.ofNat 0 then 0
    else c_strncmp a.tail b.tail n

/-- `ini_as_bool`: true exactly when the (untrimmed) value view has
length 4 and its bytes compare equal to `"true"`. -/
def ini_as_bool (value : Option IniValue) : Bool :=
  match value with
  | none => false
  | some v =>
    if v.value.length = 4 ∧ c_strncmp v.value ['t', 'r', 'u', 'e'] 4 = 0 then true
    else false

/-- decimal digit, by byte value as in C. -/
def isDecDigit (c : Char) : Bool := 48 ≤ c.toNat && c.toNat ≤ 57

/-- octal digit. -/
def isOctDigit (c : Char) : Bool := 48 ≤ c.toNat && c.toNat ≤ 55

/-- hexadecimal digit. -/
def isHexDigitC (c : Char) : Bool :=
  (48 ≤ c.toNat && c.toNat ≤ 57) || (97 ≤ c.toNat && c.toNat ≤ 102) ||
  (65 ≤ c.toNat && c.toNat ≤ 70)

/-- numeric value of a (hex) digit byte. -/
def digitVal (c : Char) : Nat :=
  if 48 ≤ c.toNat && c.toNat ≤ 57 then c.toNat - 48
  else if 97 ≤ c.toNat && c.toNat ≤ 102 then c.toNat - 87
  else if 65 ≤ c.toNat && c.toNat ≤ 70 then c.toNat - 55
  else 0

/-- value of a digit run in the given base. -/
def natOfDigits (base : Nat) (ds : List Char) : Nat :=
  ds.foldl (fun a c => a * base + digitVal c) 0

/-- the optional sign of a C numeric subject sequence: whether it is
negative, and the rest. -/
def c_num_sign : List Char → Bool × List Char
  | '-' :: r => (true, r)
  | '+' :: r => (false, r)
  | s => (false, s)

/-- base detection of `strtoul`/`strtol` with base 0, after the sign:
`0x`/`0X` followed by a hex digit selects base 16 (digits after the
prefix), a leading `0` selects base 8, anything else base 10; returns
the base and the digit run of the subject sequence. -/
def c_strtoull_digits (s : List Char) : Nat × List Char :=
  match s with
  | '0' :: c :: r =>
    if (c = 'x' ∨ c = 'X') ∧ isHexDigitC (r.headD ' ') then (16, r.takeWhile isHexDigitC)
    else (8, ('0' :: c :: r).takeWhile isOctDigit)
  | _ => (10, s.takeWhile isDecDigit)

def ULLONG_MAX : Nat := 2 ^ 64 - 1

/-- LP64: `long` and `long long` coincide; `LLONG_MAX = LONG_MAX`. -/
def LLONG_MAX : Int := 2 ^ 63 - 1

def LLONG_MIN : Int := -(2 ^ 63)

/-- C99 `strtoull` with base 0: skip whitespace, optional sign, base
prefix, digit run; an empty digit run converts nothing and yields 0; a
magnitude above `ULLONG_MAX` yields `ULLONG_MAX`; a minus sign negates
in the return type (modulo 2^64). -/
def c_strtoull (s : List Char) : Nat :=
  let s1 := s.dropWhile c_isspace
  let sp := c_num_sign s1
  let bd := c_strtoull_digits sp.2
  let mag := natOfDigits bd.1 bd.2
  if ULLONG_MAX < mag then ULLONG_MAX
  else if sp.1 then (2 ^ 64 - mag) % 2 ^ 64
  else mag

/-- C99 `strtoll` with base 0: as `c_strtoull`, but saturating to
`LLONG_MAX` / `LLONG_MIN` when the signed value is out of range. -/
def c_strtoll (s : List Char) : Int :=
  let s1 := s.dropWhile c_isspace
  let sp := c_num_sign s1
  let bd := c_strtoull_digits sp.2
  let mag : Int := (natOfDigits bd.1 bd.2 : Nat)
  if sp.1 then (if 2 ^ 63 < mag then LLONG_MIN else -mag)
  else (if 2 ^ 63 - 1 < mag then LLONG_MAX else mag)

/-- `strtoull`/`strtoll` performed no conversion: the digit run of the
subject sequence is empty. -/
def strtoullNoConversion (s : List Char) : Bool :=
  ((c_strtoull_digits (c_num_sign (s.dropWhile c_isspace)).2).2).isEmpty

/-- A C `double` as far as these claims need it: an exact finite value,
the `HUGE_VAL` overflow sentinels, or NaN. -/
inductive CDouble where
  | finite (q : ℚ)
  | huge_pos
  | huge_neg
  | nan_value
deriving DecidableEq

/-- `DBL_MAX` exactly: `(2 - 2^-52) * 2^1023`. -/
def DBL_MAX_Q : ℚ := 2 ^ 1024 - 2 ^ 971

/-- Apply the sign and saturate to the `HUGE_VAL` sentinels outside the
`double` range. -/
def satDouble (neg : Bool) (q : ℚ) : CDouble :=
  let v := if neg then -q else q
  if DBL_MAX_Q < v then CDouble.huge_pos
  else if v < -DBL_MAX_Q then CDouble.huge_neg
  else CDouble.finite v

/-- lowercase a byte for the case-insensitive `inf`/`nan` forms. -/
def toLowerC (c : Char) : Char :=
  if 65 ≤ c.toNat && c.toNat ≤ 90 then Char.ofNat (c.toNat + 32) else c

/-- case-insensitive pattern prefix test. -/
def matchesCI : List Char → List Char → Bool
  | [], _ => true
  | _ :: _, [] => false
  | p :: ps, c :: cs => toLowerC c = p && matchesCI ps cs

/-- the optional exponent part of a `strtod` subject sequence:
`markers` are the exponent letters; an absent or malformed exponent
contributes 0. -/
def c_strtod_exp (markers : List Char) (s : List Char) : Int :=
  match s with
  | c :: rest =>
    if markers.contains c then
      let sp := c_num_sign rest
      let eds := sp.2.takeWhile isDecDigit
      if eds.isEmpty then 0
      else if sp.1 then -(natOfDigits 10 eds : Int) else (natOfDigits 10 eds : Int)
    else 0
  | [] => 0

/-- decimal form of `strtod`: integer digits, optional fraction,
optional decimal exponent; no digits at all means no conversion (0). -/
def c_strtod_dec (neg : Bool) (s : List Char) : CDouble :=
  let ip := s.takeWhile isDecDigit
  let r1 := s.dropWhile isDecDigit
  let fr : List Char × List Char :=
    match r1 with
    | '.' :: rr => (rr.takeWhile isDecDigit, rr.dropWhile isDecDigit)
    | _ => ([], r1)
  if ip.isEmpty ∧ fr.1.isEmpty then CDouble.finite 0
  else
    let mant : ℚ := (natOfDigits 10 ip : ℚ) + (natOfDigits 10 fr.1 : ℚ) / 10 ^ fr.1.length
    satDouble neg (mant * 10 ^ c_strtod_exp ['e', 'E'] fr.2)

/-- hexadecimal form of `strtod` (after `0x`): hex digits, optional
fraction, optional binary exponent; no hex digits means the subject was
just the `0`. -/
def c_strtod_hex (neg : Bool) (s : List Char) : CDouble :=
  let ip := s.takeWhile isHexDigitC
  let r1 := s.dropWhile isHexDigitC
  let fr : List Char × List Char :=
    match r1 with
    | '.' :: rr => (rr.takeWhile isHexDigitC, rr.dropWhile isHexDigitC)
    | _ => ([], r1)
  if ip.isEmpty ∧ fr.1.isEmpty then CDouble.finite 0
  else
    let mant : ℚ := (natOfDigits 16 ip : ℚ) + (natOfDigits 16 fr.1 : ℚ) / 16 ^ fr.1.length
    satDouble neg (mant * 2 ^ c_strtod_exp ['p', 'P'] fr.2)

/-- C99 `strtod`: whitespace, sign, then an `inf`/`infinity` form
(`HUGE_VAL` of that sign), a `nan` form, a hexadecimal form, or the
decimal form. -/
def c_strtod (s : List Char) : CDouble :=
  let s1 := s.dropWhile c_isspace
  let sp := c_num_sign s1
  if matchesCI ['i', 'n', 'f'] sp.2 then (if sp.1 then CDouble.huge_neg else CDouble.huge_pos)
  else if matchesCI ['n', 'a', 'n'] sp.2 then CDouble.nan_value
  else
    match sp.2 with
    | '0' :: 'x' :: r => c_strtod_hex sp.1 r
    | '0' :: 'X' :: r => c_strtod_hex sp.1 r
    | _ => c_strtod_dec sp.1 sp.2

/-- `strtod` performed no conversion: no `inf`/`nan` form and no digit
in the significand. -/
def strtodNoConversion (s : List Char) : Bool :=
  let s2 := (c_num_sign (s.dropWhile c_isspace)).2
  !(matchesCI ['i', 'n', 'f'] s2) && !(matchesCI ['n', 'a', 'n'] s2) &&
  (s2.takeWhile isDecDigit).isEmpty &&
  (match s2.dropWhile isDecDigit with
   | '.' :: rr => (rr.takeWhile isDecDigit).isEmpty
   | _ => true)

/-- `ini_as_uint`: 0 for a NULL or empty value, else
`strtoull(value->value.buf, NULL, 0)` — the parse runs over the
NUL-terminated buffer starting at the view, i.e. the view's bytes
followed by `rest`, the document text after the view, and can read past
the view's end — with a result equal to `ULLONG_MAX` collapsed to 0. -/
def ini_as_uint (value : Option IniValue) (rest : List Char) : Nat :=
  match value with
  | none => 0
  | some v =>
    if strv__is_empty v.value then 0
    else
      let out := c_strtoull (v.value ++ rest)
      if out = ULLONG_MAX then 0 else out

/-- `ini_as_int`: 0 for a NULL or empty value, else `strtoll` on the
buffer starting at the view (the view's bytes followed by `rest`, the
document text after the view), with a result equal to `LONG_MAX` or
`LONG_MIN` (= `LLONG_MAX` / `LLONG_MIN` on LP64) collapsed to 0. -/
def ini_as_int (value : Option IniValue) (rest : List Char) : Int :=
  match value with
  | none => 0
  | some v =>
    if strv__is_empty v.value then 0
    else
      let out := c_strtoll (v.value ++ rest)
      if out = LLONG_MAX ∨ out = LLONG_MIN then 0 else out

/-- `ini_as_num`: 0 for a NULL or empty value, else `strtod` on the
buffer starting at the view (the view's bytes followed by `rest`, the
document text after the view), with `HUGE_VAL` / `-HUGE_VAL` results
collapsed to 0. -/
def ini_as_num (value : Option IniValue) (rest : List Char) : CDouble :=
  match value with
  | none => CDouble.finite 0
  | some v =>
    if strv__is_empty v.value then CDouble.finite 0
    else
      let out := c_strtod (v.value ++ rest)
      if out = CDouble.huge_pos ∨ out = CDouble.huge_neg then CDouble.finite 0 else out

def INI_NO_ERR : Int := 0
def INI_INVALID_ARGS : Int := -1
def INI_BUFFER_TOO_SMALL : Int := -2

/-- The copy loop of `ini__rem_escaped`, recursing over the source
bytes at positions `src_pos < len` (the list `value.dropLast`, since
`len = value.len - 1`), with `last = value.buf[len]`: each iteration
checks `dest_pos` against `buflen` BEFORE its store; a backslash whose
lookahead byte (`value.buf[src_pos+1]`, i.e. the next remaining byte or
`last`) is `;`/`#` is skipped and the marker stored instead (advancing
the source by two); when the source run is exhausted the code checks
the bound once more, stores `value.buf[len]`, and stores the
terminating NUL WITHOUT a bound check.  Returns the C return value and
the (index, byte) stores performed. -/
def ini__rem_escaped_loop (last : Char) (buflen : Nat) :
    List Char → Nat → List (Nat × Char) → Int × List (Nat × Char)
  | [], dest_pos, ws =>
    if buflen ≤ dest_pos then (INI_BUFFER_TOO_SMALL, ws)
    else (((dest_pos + 1 : Nat) : Int),
          ws ++ [(dest_pos, last), (dest_pos + 1, Char.ofNat 0)])
  | c :: rest, dest_pos, ws =>
    if buflen ≤ dest_pos then (INI_BUFFER_TOO_SMALL, ws)
    else if c = '\\' ∧ (rest.headD last = ';' ∨ rest.headD last = '#') then
      match rest with
      | [] => ini__rem_escaped_loop last buflen [] (dest_pos + 1) (ws ++ [(dest_pos, last)])
      | m :: rest2 =>
        ini__rem_escaped_loop last buflen rest2 (dest_pos + 1) (ws ++ [(dest_pos, m)])
    else ini__rem_escaped_loop last buflen rest (dest_pos + 1) (ws ++ [(dest_pos, c)])

/-- `ini__rem_escaped`: invalid args for a NULL buffer or zero length,
an empty value writes just a NUL, otherwise the copy loop over
`value.len - 1` bytes plus the final byte and terminator. -/
def ini__rem_escaped (value : List Char) (buflen : Nat) : Int × List (Nat × Char) :=
  if buflen = 0 then (INI_INVALID_ARGS, [])
  else if strv__is_empty value then (0, [(0, Char.ofNat 0)])
  else ini__rem_escaped_loop (value.getLastD (Char.ofNat 0)) buflen value.dropLast 0 []

/-- `ini_to_str`: invalid args for NULL inputs or zero `buflen`; an
empty value writes a NUL and returns 0; otherwise the trimmed value is
copied, through `ini__rem_escaped` when escape removal was requested,
or through a `buflen < len + 1` check plus `memcpy` and terminator when
not.  Returns the C return value and the (index, byte) stores. -/
def ini_to_str (value : Option IniValue) (buflen : Nat) (remove_escape_chars : Bool) :
    Int × List (Nat × Char) :=
  match value with
  | none => (INI_INVALID_ARGS, [])
  | some v =>
    if buflen = 0 then (INI_INVALID_ARGS, [])
    else if strv__is_empty v.value then (0, [(0, Char.ofNat 0)])
    else
      let strv := strv__trim v.value
      if remove_escape_chars then ini__rem_escaped strv buflen
      else if buflen < strv.length + 1 then (INI_BUFFER_TOO_SMALL, [])
      else (((strv.length : Nat) : Int),
            ((List.range strv.length).map
              (fun i => (i, strv.getD i (Char.ofNat 0)))) ++ [(strv.length, Char.ofNat 0)])

/-- The string content produced by `ini__rem_escaped` into a buffer of
`value.len + 1` bytes (as `ini_as_str` calls it, in place on the copy;
the loop only stores at or behind the read position, so the in-place
run equals this out-of-place one): the stored bytes short of the
terminating NUL. -/
def ini__rem_escaped_copy (value : List Char) : List Char :=
  ((ini__rem_escaped value (value.length + 1)).2.dropLast).map Prod.snd

/-- `ini_as_str`: NULL for a NULL value; trim the value and duplicate it
(`NULL` when the trimmed length is 0, and `ini__rem_escaped` then
rejects the NULL buffer, leaving the result NULL); the duplicate
optionally gets the escape-removal pass run on it in place. -/
def ini_as_str (value : Option IniValue) (remove_escape_chars : Bool) :
    Option (List Char) :=
  match value with
  | none => none
  | some v =>
    let val := strv__trim v.value
    match ini__strdup val with
    | none => none
    | some str =>
      if remove_escape_chars then some (ini__rem_escaped_copy str) else some str

/-! ## Shared helper lemmas -/

theorem char_toNat_inj {a b : Char} (h : a.toNat = b.toNat) : a = b :=
  Char.ext (UInt32.ext h)

theorem c_memcmp_eq_zero_iff :
    ∀ {a b : List Char}, a.length = b.length → (c_memcmp a b = 0 ↔ a = b) := by
  intro a
  induction a with
  | nil =>
    intro b hlen
    cases b with
    | nil => simp [c_memcmp]
    | cons x xs => simp at hlen
  | cons x xs ih =>
    intro b hlen
    cases b with
    | nil => simp at hlen
    | cons y ys =>
      simp only [List.length_cons, Nat.succ.injEq] at hlen
      by_cases hlt : x.toNat < y.toNat
      · simp only [c_memcmp, if_pos hlt]
        constructor
        · intro h; cases h
        · intro h
          cases h
          omega
      · by_cases hgt : y.toNat < x.toNat
        · simp only [c_memcmp, if_neg hlt, if_pos hgt]
          constructor
          · intro h; cases h
          · intro h; cases h; omega
        · have hxy : x = y := char_toNat_inj (by omega)
          subst hxy
          simp only [c_memcmp, if_neg hlt, if_neg hgt]
          rw [ih hlen]
          simp

theorem strv__cmp_eq_zero_iff (a b : List Char) : strv__cmp a b = 0 ↔ a = b := by
  unfold strv__cmp
  by_cases h1 : a.length < b.length
  · simp only [if_pos h1]
    constructor
    · intro h; cases h
    · intro h; subst h; omega
  · by_cases h2 : b.length < a.length
    · simp only [if_neg h1, if_pos h2]
      constructor
      · intro h; cases h
      · intro h; subst h; omega
    · simp only [if_neg h1, if_neg h2]
      exact c_memcmp_eq_zero_iff (by omega)

theorem ini__find_value_in_first_match :
    ∀ (values : List IniValue) (key : List Char) (v : IniValue),
      ini__find_value_in values key = some v →
      ∃ i : Nat, values[i]? = some v ∧ strv__cmp v.key key = 0 ∧
        ∀ j, j < i → ∀ w : IniValue, values[j]? = some w → strv__cmp w.key key ≠ 0 := by
  intro values
  induction values with
  | nil => intro key v h; simp [ini__find_value_in] at h
  | cons u rest ih =>
    intro key v h
    by_cases hc : strv__cmp u.key key = 0
    · simp only [ini__find_value_in, if_pos hc, Option.some.injEq] at h
      subst h
      exact ⟨0, by simp, hc, fun j hj => by omega⟩
    · simp only [ini__find_value_in, if_neg hc] at h
      obtain ⟨i, hget, hcmp, hfirst⟩ := ih key v h
      refine ⟨i + 1, by simpa using hget, hcmp, ?_⟩
      intro j hj w hw
      cases j with
      | zero =>
        simp only [List.getElem?_cons_zero, Option.some.injEq] at hw
        subst hw; exact hc
      | succ k =>
        simp only [List.getElem?_cons_succ] at hw
        exact hfirst k (by omega) w hw

/-! ## C5 -/

/-- C5: under default options, parsing `a=1\na=2` yields one table whose
entry sequence has length 2, and `ini_get` returns the entry with value
`1`; in general `ini__find_value` returns the first matching entry by
insertion order (no earlier entry's key compares equal). -/
theorem C5_lookup_first_match :
    (∀ (t : IniTable) (key : List Char) (v : IniValue),
        ini__find_value t key = some v →
        ∃ i : Nat, t.values[i]? = some v ∧ strv__cmp v.key key = 0 ∧
          ∀ j, j < i → ∀ w : IniValue, t.values[j]? = some w → strv__cmp w.key key ≠ 0) ∧
    (∃ t : IniTable,
        ini_get_table (ini_parse_str ['a', '=', '1', '\n', 'a', '=', '2'] none) none = some t ∧
        t.values.length = 2 ∧
        ini_get (some t) ['a'] = some ⟨['a'], ['1']⟩) := by
  constructor
  · intro t key v h
    unfold ini__find_value at h
    split at h
    · cases h
    · exact ini__find_value_in_first_match t.values key v h
  · exact ⟨⟨['r', 'o', 'o', 't'], [⟨['a'], ['1']⟩, ⟨['a'], ['2']⟩]⟩, by decide, by decide, by decide⟩

/-- Witness for C5 at a concrete table and key. -/
theorem C5_lookup_first_match_witness :
    ∃ i : Nat,
      ([⟨['a'], ['1']⟩, ⟨['a'], ['2']⟩] : List IniValue)[i]? = some ⟨['a'], ['1']⟩ ∧
      strv__cmp ['a'] ['a'] = 0 ∧
      ∀ j, j < i → ∀ w : IniValue,
        ([⟨['a'], ['1']⟩, ⟨['a'], ['2']⟩] : List IniValue)[j]? = some w →
        strv__cmp w.key ['a'] ≠ 0 :=
  C5_lookup_first_match.1 ⟨['r', 'o', 'o', 't'], [⟨['a'], ['1']⟩, ⟨['a'], ['2']⟩]⟩ ['a']
    ⟨['a'], ['1']⟩ (by decide)

/-! ## C6 helper lemmas -/

theorem ini__find_value_idx_isSome :
    ∀ (values : List IniValue) (key : List Char) (i : Nat),
      ini__find_value_idx values key = some i → (ini__find_value_in values key).isSome := by
  intro values
  induction values with
  | nil => intro key i h; simp [ini__find_value_idx] at h
  | cons v rest ih =>
    intro key i h
    by_cases hc : strv__cmp v.key key = 0
    · simp [ini__find_value_in, if_pos hc]
    · simp only [ini__find_value_idx, if_neg hc, Option.map_eq_some'] at h
      obtain ⟨i', hi', _⟩ := h
      simp only [ini__find_value_in, if_neg hc]
      exact ih key i' hi'

theorem ini__override_value_length (values : List IniValue) (key val : List Char) :
    (ini__override_value values key val).length = values.length := by
  induction values with
  | nil => rfl
  | cons v rest ih =>
    unfold ini__override_value
    split <;> simp [ih]

theorem ini__override_value_at_idx :
    ∀ (values : List IniValue) (key val : List Char) (i : Nat),
      ini__find_value_idx values key = some i →
      (ini__override_value values key val)[i]?
        = (values[i]?).map (fun v => { v with value := val }) := by
  intro values
  induction values with
  | nil => intro key val i h; simp [ini__find_value_idx] at h
  | cons v rest ih =>
    intro key val i h
    by_cases hc : strv__cmp v.key key = 0
    · simp only [ini__find_value_idx, if_pos hc, Option.some.injEq] at h
      subst h
      simp [ini__override_value, if_pos hc]
    · simp only [ini__find_value_idx, if_neg hc, Option.map_eq_some'] at h
      obtain ⟨i', hi', hii⟩ := h
      subst hii
      simp only [ini__override_value, if_neg hc, List.getElem?_cons_succ]
      exact ih key val i' hi'

theorem ini__override_value_frame :
    ∀ (values : List IniValue) (key val : List Char) (i : Nat),
      ini__find_value_idx values key = some i →
      ∀ j, j ≠ i → (ini__override_value values key val)[j]? = values[j]? := by
  intro values
  induction values with
  | nil => intro key val i h; simp [ini__find_value_idx] at h
  | cons v rest ih =>
    intro key val i h j hj
    by_cases hc : strv__cmp v.key key = 0
    · simp only [ini__find_value_idx, if_pos hc, Option.some.injEq] at h
      subst h
      cases j with
      | zero => omega
      | succ k => simp [ini__override_value, if_pos hc]
    · simp only [ini__find_value_idx, if_neg hc, Option.map_eq_some'] at h
      obtain ⟨i', hi', hii⟩ := h
      subst hii
      cases j with
      | zero => simp [ini__override_value, if_neg hc]
      | succ k =>
        simp only [ini__override_value, if_neg hc, List.getElem?_cons_succ]
        exact ih key val i' hi' k (by omega)

/-! ## C6 -/

/-- C6: with override-duplicate-keys enabled, a key-value line whose
trimmed key matches entry `i` of the destination table replaces only
that entry's value view: the table name and entry count are unchanged,
entry `i` keeps its key, every other entry is untouched, and parsing
`a=1\na=2` this way yields the single entry `a=2`. -/
theorem C6_override_in_place :
    (((ini_parse_str ['a', '=', '1', '\n', 'a', '=', '2']
        (some ⟨false, true, '='⟩)).tables.head?).map IniTable.values
      = some [⟨['a'], ['2']⟩]) ∧
    (∀ (table : IniTable) (s : List Char) (options : IniOpts) (i : Nat),
      options.override_duplicate_keys = true →
      strv__is_empty (strv__trim (istr__get_view s options.key_value_divider).1) = false →
      ini__find_value_idx table.values
          (strv__trim (istr__get_view s options.key_value_divider).1) = some i →
      (ini__add_value table s options).1.name = table.name ∧
      (ini__add_value table s options).1.values.length = table.values.length ∧
      (ini__add_value table s options).1.values[i]?
        = (table.values[i]?).map (fun v =>
            { v with value := ini__cut_comment (strv__trim
                (istr__get_view (istr__skip
                  (istr__get_view s options.key_value_divider).2) '\n').1) }) ∧
      (∀ j, j ≠ i → (ini__add_value table s options).1.values[j]? = table.values[j]?)) := by
  constructor
  · decide
  · intro table s options i hov hkey hidx
    have hfind : (ini__find_value table
        (strv__trim (istr__get_view s options.key_value_divider).1)).isSome := by
      unfold ini__find_value
      rw [hkey]
      simp only [Bool.false_eq_true, if_false]
      exact ini__find_value_idx_isSome _ _ i hidx
    have hres : (ini__add_value table s options).1
        = { table with
            values :=
              (ini__override_value table.values
                (strv__trim (istr__get_view s options.key_value_divider).1)
                (ini__cut_comment (strv__trim (istr__get_view (istr__skip
                  (istr__get_view s options.key_value_divider).2) '\n').1))) } := by
      unfold ini__add_value
      simp only [hkey, Bool.false_eq_true, if_false, hov, true_and, hfind, if_true]
    rw [hres]
    refine ⟨rfl, ini__override_value_length _ _ _, ?_, ?_⟩
    · exact ini__override_value_at_idx table.values _ _ i hidx
    · intro j hj
      exact ini__override_value_frame table.values _ _ i hidx j hj

/-- Witness for C6 at a concrete table, line, and options. -/
theorem C6_override_in_place_witness :
    (ini__add_value ⟨['t'], [⟨['a'], ['1']⟩, ⟨['b'], ['9']⟩]⟩ ['a', '=', '2']
        ⟨false, true, '='⟩).1.values[0]? = some ⟨['a'], ['2']⟩ ∧
    (ini__add_value ⟨['t'], [⟨['a'], ['1']⟩, ⟨['b'], ['9']⟩]⟩ ['a', '=', '2']
        ⟨false, true, '='⟩).1.values[1]? = some ⟨['b'], ['9']⟩ := by
  have h := C6_override_in_place.2 ⟨['t'], [⟨['a'], ['1']⟩, ⟨['b'], ['9']⟩]⟩ ['a', '=', '2']
    ⟨false, true, '='⟩ 0 rfl (by decide) (by decide)
  exact ⟨h.2.2.1.trans (by decide), (h.2.2.2 1 (by omega)).trans (by decide)⟩

/-! ## C1 helper lemmas: the table-name sequence through the parse loop -/

theorem list_set_names_preserved :
    ∀ (tables : List IniTable) (ti : Nat) (x : IniTable),
      x.name = (tables.getD ti ⟨[], []⟩).name →
      (tables.set ti x).map IniTable.name = tables.map IniTable.name := by
  intro tables
  induction tables with
  | nil => intro ti x _; simp
  | cons t rest ih =>
    intro ti x hx
    cases ti with
    | zero =>
      simp only [List.getD_cons_zero] at hx
      simp [List.set, hx]
    | succ k =>
      simp only [List.getD_cons_succ] at hx
      simp [List.set, ih k x hx]

theorem ini__add_value_name (table : IniTable) (s : List Char) (options : IniOpts) :
    (ini__add_value table s options).1.name = table.name := by
  simp only [ini__add_value]
  split
  · rfl
  · split <;> rfl

theorem ini__table_body_names :
    ∀ (fuel : Nat) (tables : List IniTable) (ti : Nat) (s : List Char) (options : IniOpts),
      ((ini__table_body fuel tables ti s options).1).map IniTable.name
        = tables.map IniTable.name := by
  intro fuel
  induction fuel with
  | zero => intro tables ti s options; rfl
  | succ fuel ih =>
    intro tables ti s options
    cases s with
    | nil => rfl
    | cons c cs =>
      simp only [ini__table_body]
      split
      · rfl
      · split
        · exact ih ..
        · rw [ih]
          exact list_set_names_preserved _ _ _ (ini__add_value_name ..)

theorem ini__add_table_names (tables : List IniTable) (s : List Char) (options : IniOpts) :
    ∃ l, ((ini__add_table tables s options).1).map IniTable.name
      = tables.map IniTable.name ++ l := by
  rcases hf : (if options.merge_duplicate_tables = true
      then ini__find_table_idx tables (istr__get_view (istr__skip s) ']').1
      else none) with _ | i <;>
    cases he : strv__is_empty (istr__get_view (istr__skip s) ']').1
  · refine ⟨[(istr__get_view (istr__skip s) ']').1], ?_⟩
    simp only [ini__add_table, he, hf, Bool.false_eq_true, if_false, ini__table_body_names]
    simp
  · exact ⟨[], by simp only [ini__add_table, he, if_true]; simp⟩
  · refine ⟨[], ?_⟩
    simp only [ini__add_table, he, hf, Bool.false_eq_true, if_false, ini__table_body_names]
    simp
  · exact ⟨[], by simp only [ini__add_table, he, if_true]; simp⟩

theorem ini__parse_loop_names :
    ∀ (fuel : Nat) (tables : List IniTable) (s : List Char) (options : IniOpts),
      ∃ l, (ini__parse_loop fuel tables s options).map IniTable.name
        = tables.map IniTable.name ++ l := by
  intro fuel
  induction fuel with
  | zero => intro tables s options; exact ⟨[], by simp [ini__parse_loop]⟩
  | succ fuel ih =>
    intro tables s options
    cases s with
    | nil => exact ⟨[], by simp [ini__parse_loop]⟩
    | cons c cs =>
      simp only [ini__parse_loop]
      split
      · obtain ⟨l1, hl1⟩ := ini__add_table_names tables (c :: cs) options
        obtain ⟨l2, hl2⟩ := ih ..
        exact ⟨l1 ++ l2, by rw [hl2, hl1, List.append_assoc]⟩
      · split
        · obtain ⟨l, hl⟩ := ih ..
          exact ⟨l, hl⟩
        · obtain ⟨l, hl⟩ := ih ..
          refine ⟨l, ?_⟩
          rw [hl, list_set_names_preserved _ _ _ (ini__add_value_name ..)]

/-! ## C1 -/

/-- C1 counterexample: on the empty input, `ini_parse_str` duplicates
nothing (`ini__strdup` returns NULL for length 0), `ini__parse_internal`
returns before pushing the root table, and the document has NO tables at
all — the root table does not exist, contrary to the claim that it is
present for every input including the empty one. -/
theorem C1_empty_input_no_root :
    (ini_parse_str [] none).tables = [] ∧
    ini_get_table (ini_parse_str [] none) none = none := by
  constructor <;> rfl

/-- C1 amended: for every NON-EMPTY input the document's table sequence
is non-empty and its first table is the implicit root table (named
`root`); for the empty input the table list is empty (see the
counterexample). -/
theorem C1_root_first (s : List Char) (options : Option IniOpts) (h : s ≠ []) :
    ∃ t rest, (ini_parse_str s options).tables = t :: rest ∧ t.name = ['r', 'o', 'o', 't'] := by
  have hdup : ini__strdup s = some s := by
    unfold ini__strdup
    rw [if_neg]
    simpa using h
  have hgoal : (ini_parse_str s options).tables
      = ini__parse_loop (s.length + 1) [{ name := ['r', 'o', 'o', 't'], values := [] }] s
          (ini__set_default_opts options) := by
    unfold ini_parse_str ini__parse_internal
    rw [hdup]
  obtain ⟨l, hl⟩ := ini__parse_loop_names (s.length + 1)
    [{ name := ['r', 'o', 'o', 't'], values := [] }] s (ini__set_default_opts options)
  simp only [hgoal]
  rcases htab : ini__parse_loop (s.length + 1)
      [{ name := ['r', 'o', 'o', 't'], values := [] }] s (ini__set_default_opts options)
    with _ | ⟨t, rest⟩
  · rw [htab] at hl
    simp at hl
  · rw [htab] at hl
    simp only [List.map_cons, List.map_nil, List.cons_append, List.nil_append,
      List.cons.injEq] at hl
    exact ⟨t, rest, rfl, hl.1⟩

/-- Witness for C1 at the one-byte input `a`. -/
theorem C1_root_first_witness :
    ∃ t rest, (ini_parse_str ['a'] none).tables = t :: rest ∧ t.name = ['r', 'o', 'o', 't'] :=
  C1_root_first ['a'] none (by decide)

/-! ## C3 -/

/-- C3 counterexample: parsing `[]\na=1`, the empty-name header is
skipped but the body is NOT consumed and discarded — the line `a=1`
lands in the root table (and no new table is created). -/
theorem C3_empty_header_body_not_discarded :
    ini_get (ini_get_table (ini_parse_str ['[', ']', '\n', 'a', '=', '1'] none) none) ['a']
      = some ⟨['a'], ['1']⟩ ∧
    (ini_parse_str ['[', ']', '\n', 'a', '=', '1'] none).tables.length = 1 := by
  constructor <;> decide

/-- C3 amended: a table header whose bracketed name is empty creates no
table, and `ini__add_table` returns immediately with the stream
positioned right after the `]`, without consuming the body; the
following lines are therefore handled by the top-level loop (key-value
lines go to the root table, as the counterexample shows for `[]\na=1`).
Note the code tests the RAW bracketed name for emptiness (no trim). -/
theorem C3_empty_header_skip :
    (∀ (tables : List IniTable) (s : List Char) (options : IniOpts),
      strv__is_empty (istr__get_view (istr__skip s) ']').1 = true →
      ini__add_table tables s options
        = (tables, istr__skip (istr__get_view (istr__skip s) ']').2)) ∧
    ((ini_parse_str ['[', ']', '\n', 'a', '=', '1'] none).tables
      = [⟨['r', 'o', 'o', 't'], [⟨['a'], ['1']⟩]⟩]) := by
  constructor
  · intro tables s options h
    simp only [ini__add_table, h, if_true]
  · decide

/-- Witness for C3 at the concrete header `[]` followed by a body. -/
theorem C3_empty_header_skip_witness :
    ini__add_table [⟨['r', 'o', 'o', 't'], []⟩] ['[', ']', '\n', 'a', '=', '1']
        ini__default_opts
      = ([⟨['r', 'o', 'o', 't'], []⟩], ['\n', 'a', '=', '1']) :=
  (C3_empty_header_skip.1 [⟨['r', 'o', 'o', 't'], []⟩] ['[', ']', '\n', 'a', '=', '1']
    ini__default_opts (by decide)).trans (by decide)

/-! ## C4 helper lemmas -/

theorem strv__is_empty_eq_false {l : List Char} (h : l ≠ []) : strv__is_empty l = false := by
  cases l with
  | nil => exact absurd rfl h
  | cons a as => rfl

theorem list_takeWhile_append_left (p : Char → Bool) :
    ∀ (l₁ l₂ : List Char), (∃ x ∈ l₁, p x = false) →
      (l₁ ++ l₂).takeWhile p = l₁.takeWhile p := by
  intro l₁
  induction l₁ with
  | nil => intro l₂ h; simp at h
  | cons a l ih =>
    intro l₂ h
    by_cases hpa : p a = true
    · obtain ⟨x, hx, hpx⟩ := h
      rcases List.mem_cons.mp hx with rfl | hxl
      · rw [hpa] at hpx; cases hpx
      · simp [List.takeWhile_cons, hpa, ih l₂ ⟨x, hxl, hpx⟩]
    · have hfa : p a = false := by revert hpa; cases p a <;> simp
      simp [List.takeWhile_cons, hfa]

theorem strv__trim_all_ws (v : List Char) (h : ∀ c ∈ v, c_isspace c = true) :
    strv__trim v = v := by
  have hout : v.dropWhile c_isspace = [] := List.dropWhile_eq_nil_iff.mpr h
  simp [strv__trim, hout, strv__is_empty]

theorem list_take_sub_takeWhile_reverse (p : Char → Bool) (r : List Char) :
    r.reverse.take (r.length - (r.takeWhile p).length) = (r.dropWhile p).reverse := by
  obtain ⟨tw, dw, htw, hdw⟩ : ∃ tw dw, r.takeWhile p = tw ∧ r.dropWhile p = dw :=
    ⟨_, _, rfl, rfl⟩
  have hr : r = tw ++ dw := by rw [← htw, ← hdw, List.takeWhile_append_dropWhile]
  rw [htw, hdw, hr, List.reverse_append, List.length_append]
  have hlen : tw.length + dw.length - tw.length = dw.reverse.length := by
    rw [List.length_reverse]; omega
  rw [hlen, List.take_left]

theorem strv__trim_eq (v : List Char) (h : ∃ c ∈ v, c_isspace c = false) :
    strv__trim v = ((v.dropWhile c_isspace).reverse.dropWhile c_isspace).reverse := by
  obtain ⟨c0, hc0, hpc0⟩ := h
  have hvne : v ≠ [] := by rintro rfl; simp at hc0
  have houtne : v.dropWhile c_isspace ≠ [] := by
    intro hnil
    have := List.dropWhile_eq_nil_iff.mp hnil c0 hc0
    rw [hpc0] at this; cases this
  have hsplit : v.takeWhile c_isspace ++ v.dropWhile c_isspace = v :=
    List.takeWhile_append_dropWhile _ _
  have hc0out : c0 ∈ v.dropWhile c_isspace := by
    rcases List.mem_append.mp (by rw [hsplit]; exact hc0) with hl | hr
    · have := List.mem_takeWhile_imp hl
      rw [hpc0] at this; cases this
    · exact hr
  have hgoal : strv__trim v
      = (v.dropWhile c_isspace).take ((v.dropWhile c_isspace).length
          - (v.reverse.takeWhile c_isspace).length) := by
    simp only [strv__trim, strv__is_empty_eq_false hvne, Bool.false_eq_true, if_false,
      strv__is_empty_eq_false houtne]
  have htail : v.reverse.takeWhile c_isspace
      = (v.dropWhile c_isspace).reverse.takeWhile c_isspace := by
    conv_lhs => rw [← hsplit]
    rw [List.reverse_append]
    exact list_takeWhile_append_left _ _ _ ⟨c0, List.mem_reverse.mpr hc0out, hpc0⟩
  rw [hgoal, htail]
  have hmain := list_take_sub_takeWhile_reverse c_isspace (v.dropWhile c_isspace).reverse
  rw [List.reverse_reverse, List.length_reverse] at hmain
  exact hmain

/-! ## C4 -/

/-- C4 counterexample: a single space trims to ITSELF (length 1, not
0): when dropping the leading whitespace would leave nothing,
`strv__trim` returns the original, untrimmed view. -/
theorem C4_trim_all_whitespace_not_empty :
    strv__trim [' '] = [' '] ∧ (strv__trim [' ']).length ≠ 0 := by
  constructor <;> decide

/-- C4 amended: when the view contains at least one non-whitespace
byte, `strv__trim` removes exactly the leading and the trailing
ASCII-whitespace runs; but a view consisting only of whitespace (and
the empty view) is returned UNCHANGED, so an all-whitespace non-empty
view does not trim to length zero. -/
theorem C4_trim_characterization (v : List Char) :
    ((∃ c ∈ v, c_isspace c = false) →
      strv__trim v = ((v.dropWhile c_isspace).reverse.dropWhile c_isspace).reverse) ∧
    ((∀ c ∈ v, c_isspace c = true) → strv__trim v = v) :=
  ⟨strv__trim_eq v, strv__trim_all_ws v⟩

/-- Witness for C4 at concrete views. -/
theorem C4_trim_characterization_witness :
    strv__trim [' ', 'a', ' '] = ['a'] ∧ strv__trim [' ', ' '] = [' ', ' '] :=
  ⟨((C4_trim_characterization [' ', 'a', ' ']).1 (by decide)).trans (by decide),
   (C4_trim_characterization [' ', ' ']).2 (by decide)⟩

/-! ## C2 helper definitions and lemmas -/

/-- An unescaped comment marker at position `i` of `v`: the byte is `#`
or `;` and the preceding byte (`prev` when `i = 0`) is not a backslash.
This is the specification-level reading of the scan condition in
`ini__add_value`. -/
def unescapedMarkerAt (prev : Option Char) (v : List Char) (i : Nat) : Prop :=
  (v.getD i ' ' = '#' ∨ v.getD i ' ' = ';') ∧
  (match i with
   | 0 => prev ≠ some '\\'
   | j + 1 => v.getD j ' ' ≠ '\\')

theorem unescapedMarkerAt_cons (prev : Option Char) (c : Char) (rest : List Char) (j : Nat) :
    unescapedMarkerAt prev (c :: rest) (j + 1) ↔ unescapedMarkerAt (some c) rest j := by
  cases j with
  | zero => simp [unescapedMarkerAt]
  | succ k => simp [unescapedMarkerAt]

theorem ini__cut_comment_aux_spec (v : List Char) :
    ∀ prev : Option Char,
      (ini__cut_comment_aux prev v <+: v) ∧
      (∀ i, i < (ini__cut_comment_aux prev v).length → ¬ unescapedMarkerAt prev v i) ∧
      ((ini__cut_comment_aux prev v).length < v.length →
        unescapedMarkerAt prev v (ini__cut_comment_aux prev v).length) := by
  induction v with
  | nil =>
    intro prev
    refine ⟨List.nil_prefix, ?_, ?_⟩
    · intro i hi; simp [ini__cut_comment_aux] at hi
    · intro h; simp [ini__cut_comment_aux] at h
  | cons c rest ih =>
    intro prev
    by_cases h : (c = '#' ∨ c = ';') ∧ prev ≠ some '\\'
    · refine ⟨?_, ?_, ?_⟩
      · simp only [ini__cut_comment_aux, if_pos h]
        exact List.nil_prefix
      · intro i hi; simp [ini__cut_comment_aux, if_pos h] at hi
      · intro _
        simp only [ini__cut_comment_aux, if_pos h, List.length_nil]
        exact ⟨by simpa using h.1, by simpa using h.2⟩
    · obtain ⟨ihpre, ihno, ihbound⟩ := ih (some c)
      refine ⟨?_, ?_, ?_⟩
      · simp only [ini__cut_comment_aux, if_neg h]
        exact List.cons_prefix_cons.mpr ⟨rfl, ihpre⟩
      · intro i hi
        simp only [ini__cut_comment_aux, if_neg h, List.length_cons] at hi
        cases i with
        | zero =>
          intro hu
          exact h ⟨by simpa [unescapedMarkerAt] using hu.1, by simpa [unescapedMarkerAt] using hu.2⟩
        | succ j =>
          rw [unescapedMarkerAt_cons]
          exact ihno j (by omega)
      · intro hlt
        simp only [ini__cut_comment_aux, if_neg h, List.length_cons] at hlt ⊢
        rw [unescapedMarkerAt_cons]
        exact ihbound (by omega)

/-- `Modelled from the spec:` the order the specification states for
producing a stored value from the raw value view: truncate at the first
unescaped comment marker FIRST, then ASCII-trim. -/
def ini_spec_cut_then_trim (raw : List Char) : List Char :=
  strv__trim (ini__cut_comment raw)

/-! ## C2 -/

/-- C2 counterexample: for the input `a=1 ;c` the code trims the raw
value `1 ;c` BEFORE cutting the inline comment, storing `1␣` (with a
trailing space), whereas cut-then-trim as claimed would store `1`. -/
theorem C2_trim_before_cut_counterexample :
    ((ini_parse_str ['a', '=', '1', ' ', ';', 'c'] none).tables.head?).map IniTable.values
      = some [⟨['a'], ['1', ' ']⟩] ∧
    ini_spec_cut_then_trim ['1', ' ', ';', 'c'] = ['1'] ∧
    (['1', ' '] : List Char) ≠ ['1'] := by
  refine ⟨by decide, by decide, by decide⟩

/-- C2 amended: the stored value is the raw value ASCII-trimmED and
THEN truncated at the first unescaped `#`/`;` — trimming happens before
comment truncation, so the stored value can retain whitespace that
precedes an inline comment.  The cut itself is exact: it keeps the
longest prefix containing no unescaped marker, and when it shortens the
value, an unescaped marker sits at the cut position. -/
theorem C2_value_trim_then_cut :
    (∀ (table : IniTable) (s : List Char) (options : IniOpts),
      strv__is_empty (strv__trim (istr__get_view s options.key_value_divider).1) = false →
      options.override_duplicate_keys = false →
      ((ini__add_value table s options).1).values
        = table.values
          ++ [⟨strv__trim (istr__get_view s options.key_value_divider).1,
               ini__cut_comment (strv__trim (istr__get_view
                 (istr__skip (istr__get_view s options.key_value_divider).2) '\n').1)⟩]) ∧
    (∀ v : List Char,
      (ini__cut_comment v <+: v) ∧
      (∀ i, i < (ini__cut_comment v).length → ¬ unescapedMarkerAt none v i) ∧
      ((ini__cut_comment v).length < v.length →
        unescapedMarkerAt none v (ini__cut_comment v).length)) := by
  constructor
  · intro table s options hkey hov
    simp only [ini__add_value, hkey, Bool.false_eq_true, if_false, hov, false_and]
  · intro v
    exact ini__cut_comment_aux_spec v none

/-- Witness for C2 at the concrete line `a=1 ;c`. -/
theorem C2_value_trim_then_cut_witness :
    ((ini__add_value ⟨['r', 'o', 'o', 't'], []⟩ ['a', '=', '1', ' ', ';', 'c']
        ini__default_opts).1).values = [⟨['a'], ['1', ' ']⟩] :=
  (C2_value_trim_then_cut.1 ⟨['r', 'o', 'o', 't'], []⟩ ['a', '=', '1', ' ', ';', 'c']
    ini__default_opts (by decide) rfl).trans (by decide)

/-! ## C8 helper lemmas -/

theorem c_strncmp_cons_eq_zero {c d : Char} {cs ds : List Char} {n : Nat}
    (hd : d.toNat ≠ 0) :
    (c_strncmp (c :: cs) (d :: ds) (n + 1) = 0 ↔ c = d ∧ c_strncmp cs ds n = 0) := by
  constructor
  · intro h0
    by_cases hlt : c.toNat < d.toNat
    · simp only [c_strncmp, List.headD_cons, List.tail_cons, if_pos hlt] at h0
      cases h0
    · by_cases hgt : d.toNat < c.toNat
      · simp [c_strncmp, hlt, hgt] at h0
      · have hcd : c = d := char_toNat_inj (by omega)
        subst hcd
        have hnul : ¬(c = Char.ofNat 0) := by
          intro hfalse
          rw [hfalse] at hd
          exact hd (by decide)
        simp only [c_strncmp, List.headD_cons, List.tail_cons, if_neg hlt, if_neg hgt,
          if_neg hnul] at h0
        exact ⟨rfl, h0⟩
  · rintro ⟨rfl, hrec⟩
    have hnul : ¬(c = Char.ofNat 0) := by
      intro hfalse
      rw [hfalse] at hd
      exact hd (by decide)
    simp [c_strncmp, Nat.lt_irrefl, hnul, hrec]

theorem c_strncmp_four (a : List Char) (h : a.length = 4) :
    (c_strncmp a ['t', 'r', 'u', 'e'] 4 = 0 ↔ a = ['t', 'r', 'u', 'e']) := by
  match a, h with
  | [x0, x1, x2, x3], _ =>
    rw [show (4 : Nat) = 3 + 1 from rfl, c_strncmp_cons_eq_zero (by decide),
      show (3 : Nat) = 2 + 1 from rfl, c_strncmp_cons_eq_zero (by decide),
      show (2 : Nat) = 1 + 1 from rfl, c_strncmp_cons_eq_zero (by decide),
      show (1 : Nat) = 0 + 1 from rfl, c_strncmp_cons_eq_zero (by decide)]
    simp [c_strncmp]

/-! ## C8 -/

/-- C8 counterexample: the parser can store the value `true␣` (with a
trailing space, via an inline comment after it), whose ASCII-trimmed
content is exactly `true`; `ini_as_bool` nevertheless returns false,
because the code compares the UNTRIMMED view. -/
theorem C8_bool_untrimmed_counterexample :
    ini_get (ini_get_table
        (ini_parse_str ['k', '=', 't', 'r', 'u', 'e', ' ', ';', 'x'] none) none) ['k']
      = some ⟨['k'], ['t', 'r', 'u', 'e', ' ']⟩ ∧
    strv__trim ['t', 'r', 'u', 'e', ' '] = ['t', 'r', 'u', 'e'] ∧
    ini_as_bool (some ⟨['k'], ['t', 'r', 'u', 'e', ' ']⟩) = false := by
  refine ⟨by decide, by decide, by decide⟩

/-- C8 amended: `ini_as_bool` returns true if and only if the value is
present and its UNTRIMMED content is exactly the 4-byte literal `true`;
everything else (including `TRUE`, `1`, a missing value, and values
that only trim to `true`) yields false. -/
theorem C8_bool_exact_literal (value : Option IniValue) :
    ini_as_bool value = true ↔ ∃ v, value = some v ∧ v.value = ['t', 'r', 'u', 'e'] := by
  cases value with
  | none => simp [ini_as_bool]
  | some v =>
    simp only [ini_as_bool, Option.some.injEq]
    constructor
    · intro h
      split at h
      · rename_i hc
        exact ⟨v, rfl, (c_strncmp_four v.value hc.1).mp hc.2⟩
      · cases h
    · rintro ⟨w, hw, hval⟩
      subst hw
      rw [if_pos ⟨by rw [hval]; rfl, by rw [hval]; decide⟩]

/-! ## C7 -/

/-- C7 (code bug in `ini__rem_escaped`): copying the 3-byte value `abc`
(4 bytes needed with the terminator) into a 3-byte destination with
escape removal returns 3 (success instead of buffer-too-small) and
stores the terminating NUL at index 3 = `buflen`, one byte PAST the
destination — the final `buf[dest_pos] = 0` store has no bound check.
The non-escape path of `ini_to_str` handles the same input correctly,
returning buffer-too-small with no stores. -/
theorem C7_to_str_writes_past_buffer :
    (ini_to_str (some ⟨['k'], ['a', 'b', 'c']⟩) 3 true).1 = 3 ∧
    (ini_to_str (some ⟨['k'], ['a', 'b', 'c']⟩) 3 true).1 ≠ INI_BUFFER_TOO_SMALL ∧
    (3, Char.ofNat 0) ∈ (ini_to_str (some ⟨['k'], ['a', 'b', 'c']⟩) 3 true).2 ∧
    ini_to_str (some ⟨['k'], ['a', 'b', 'c']⟩) 3 false = (INI_BUFFER_TOO_SMALL, []) := by
  refine ⟨by decide, by decide, by decide, by decide⟩

/-! ## C10 -/

/-- C10: when the value's trimmed content has length zero,
`ini__strdup` returns NULL rather than an allocated empty string, and
`ini_as_str` returns that NULL (with or without escape removal) — the
same result as for a NULL value, so the two are indistinguishable
through this accessor. -/
theorem C10_as_str_empty_is_null :
    (∀ (v : IniValue) (b : Bool),
      (strv__trim v.value).length = 0 → ini_as_str (some v) b = none) ∧
    (∀ b : Bool, ini_as_str none b = none) := by
  constructor
  · intro v b h
    have hdup : ini__strdup (strv__trim v.value) = none := by
      unfold ini__strdup
      rw [if_pos h]
    simp only [ini_as_str, hdup]
  · intro b
    rfl

/-- Witness for C10 at a present-but-empty value. -/
theorem C10_as_str_empty_is_null_witness :
    ini_as_str (some ⟨['k'], []⟩) true = none :=
  C10_as_str_empty_is_null.1 ⟨['k'], []⟩ true (by decide)

/-! ## C9 helper lemmas -/

theorem c_strtoull_of_noConversion (s : List Char) (h : strtoullNoConversion s = true) :
    c_strtoull s = 0 := by
  simp only [strtoullNoConversion, List.isEmpty_iff] at h
  simp only [c_strtoull, h, natOfDigits, List.foldl_nil]
  have h1 : ¬ ULLONG_MAX < 0 := by simp [ULLONG_MAX]
  rw [if_neg h1]
  split
  · simp
  · rfl

theorem c_strtoll_of_noConversion (s : List Char) (h : strtoullNoConversion s = true) :
    c_strtoll s = 0 := by
  simp only [strtoullNoConversion, List.isEmpty_iff] at h
  simp only [c_strtoll, h, natOfDigits, List.foldl_nil]
  norm_num

theorem list_dropWhile_of_takeWhile_nil {p : Char → Bool} {l : List Char}
    (h : l.takeWhile p = []) : l.dropWhile p = l := by
  cases l with
  | nil => rfl
  | cons c rest =>
    rw [List.takeWhile_cons] at h
    split at h
    · cases h
    · rename_i hc
      rw [List.dropWhile_cons, if_neg hc]

theorem c_strtod_of_noConversion (s : List Char) (h : strtodNoConversion s = true) :
    c_strtod s = CDouble.finite 0 := by
  simp only [strtodNoConversion, Bool.and_eq_true, Bool.not_eq_true'] at h
  obtain ⟨⟨⟨hinf, hnan⟩, hip⟩, hfp⟩ := h
  rw [List.isEmpty_iff] at hip
  simp only [c_strtod, hinf, hnan, Bool.false_eq_true, if_false]
  split
  · rename_i r heq
    rw [heq] at hip
    simp [List.takeWhile_cons, isDecDigit] at hip
  · rename_i r heq
    rw [heq] at hip
    simp [List.takeWhile_cons, isDecDigit] at hip
  · have hdrop := list_dropWhile_of_takeWhile_nil hip
    rw [hdrop] at hfp
    unfold c_strtod_dec
    simp only [hip, List.isEmpty_nil, hdrop]
    split
    · rfl
    · rename_i hcond
      exfalso
      apply hcond
      refine ⟨trivial, ?_⟩
      split
      · rename_i rr heq2
        rw [heq2] at hfp
        simpa using hfp
      · simp

/-! ## C9 -/

/-- C9 counterexample: the numeric parse starts at the view but runs
over the NUL-terminated document buffer, PAST the view's end.  Parsing
`k= \n9` stores for `k` the all-whitespace value view `␣` (reachable
because `strv__trim` returns an all-whitespace view unchanged), backed
by the buffer continuing `\n9`; the view's text is non-numeric
(`strtoull` converts nothing from `␣` alone), yet `ini_as_uint` skips
the space and the newline beyond the view and returns 9, not 0 — and
`ini_as_int` likewise (`strtod` behaves the same way for
`ini_as_num`). -/
theorem C9_reads_past_view_counterexample :
    ini_get (ini_get_table (ini_parse_str ['k', '=', ' ', '\n', '9'] none) none) ['k']
      = some ⟨['k'], [' ']⟩ ∧
    strtoullNoConversion [' '] = true ∧
    strtodNoConversion [' '] = true ∧
    ini_as_uint (some ⟨['k'], [' ']⟩) ['\n', '9'] = 9 ∧
    ini_as_int (some ⟨['k'], [' ']⟩) ['\n', '9'] = 9 := by
  refine ⟨by decide, by decide, by decide, by decide, by decide⟩

/-- C9 amended: the numeric accessors return zero for a NULL value and
for an empty value view; otherwise they hand the NUL-terminated buffer
starting at the view — the view's bytes followed by the rest of the
document text — to the standard parse, and return zero when that parse
converts nothing and when its result equals the saturation sentinel
(`ULLONG_MAX` for unsigned, `LLONG_MAX`/`LLONG_MIN` for signed,
`±HUGE_VAL` for floating point); no error is signaled in any case.
Because the parse can read past the view (see the counterexample), the
no-conversion and saturation conditions are conditions on the view's
bytes together with the remainder of the buffer. -/
theorem C9_numeric_zero_cases :
    (∀ rest : List Char,
        ini_as_uint none rest = 0 ∧ ini_as_int none rest = 0 ∧
        ini_as_num none rest = CDouble.finite 0) ∧
    (∀ (v : IniValue) (rest : List Char), v.value = [] →
        ini_as_uint (some v) rest = 0 ∧ ini_as_int (some v) rest = 0 ∧
        ini_as_num (some v) rest = CDouble.finite 0) ∧
    (∀ (v : IniValue) (rest : List Char),
        strtoullNoConversion (v.value ++ rest) = true →
        ini_as_uint (some v) rest = 0 ∧ ini_as_int (some v) rest = 0) ∧
    (∀ (v : IniValue) (rest : List Char),
        strtodNoConversion (v.value ++ rest) = true →
        ini_as_num (some v) rest = CDouble.finite 0) ∧
    (∀ (v : IniValue) (rest : List Char),
        c_strtoull (v.value ++ rest) = ULLONG_MAX → ini_as_uint (some v) rest = 0) ∧
    (∀ (v : IniValue) (rest : List Char),
        c_strtoll (v.value ++ rest) = LLONG_MAX ∨ c_strtoll (v.value ++ rest) = LLONG_MIN →
        ini_as_int (some v) rest = 0) ∧
    (∀ (v : IniValue) (rest : List Char),
        c_strtod (v.value ++ rest) = CDouble.huge_pos ∨
          c_strtod (v.value ++ rest) = CDouble.huge_neg →
        ini_as_num (some v) rest = CDouble.finite 0) := by
  refine ⟨fun rest => ⟨rfl, rfl, rfl⟩, ?_, ?_, ?_, ?_, ?_, ?_⟩
  · intro v rest h
    refine ⟨?_, ?_, ?_⟩ <;> simp [ini_as_uint, ini_as_int, ini_as_num, h, strv__is_empty]
  · intro v rest h
    constructor
    · by_cases he : strv__is_empty v.value = true
      · simp [ini_as_uint, he]
      · simp only [ini_as_uint, he, Bool.false_eq_true, if_false,
          c_strtoull_of_noConversion (v.value ++ rest) h]
        norm_num [ULLONG_MAX]
    · by_cases he : strv__is_empty v.value = true
      · simp [ini_as_int, he]
      · simp only [ini_as_int, he, Bool.false_eq_true, if_false,
          c_strtoll_of_noConversion (v.value ++ rest) h]
        norm_num [LLONG_MAX, LLONG_MIN]
  · intro v rest h
    by_cases he : strv__is_empty v.value = true
    · simp [ini_as_num, he]
    · simp [ini_as_num, he, c_strtod_of_noConversion (v.value ++ rest) h]
  · intro v rest h
    by_cases he : strv__is_empty v.value = true
    · simp [ini_as_uint, he]
    · simp [ini_as_uint, he, h]
  · intro v rest h
    by_cases he : strv__is_empty v.value = true
    · simp [ini_as_int, he]
    · simp [ini_as_int, he, h]
  · intro v rest h
    by_cases he : strv__is_empty v.value = true
    · simp [ini_as_num, he]
    · simp [ini_as_num, he, h]

/-- Witness for C9 at concrete non-numeric and saturating buffers,
including one whose non-numeric run continues past the view. -/
theorem C9_numeric_zero_cases_witness :
    ini_as_uint (some ⟨['k'], ['x']⟩) [] = 0 ∧
    ini_as_uint (some ⟨['k'], [' ']⟩) ['y'] = 0 ∧
    ini_as_num (some ⟨['k'], ['x']⟩) [] = CDouble.finite 0 ∧
    ini_as_uint (some ⟨['k'], ['-', '1']⟩) [] = 0 ∧
    ini_as_int (some ⟨['k'], ['9', '2', '2', '3', '3', '7', '2', '0', '3', '6', '8', '5',
        '4', '7', '7', '5', '8', '0', '7']⟩) [] = 0 ∧
    ini_as_num (some ⟨['k'], ['i', 'n', 'f']⟩) [] = CDouble.finite 0 :=
  ⟨(C9_numeric_zero_cases.2.2.1 ⟨['k'], ['x']⟩ [] (by decide)).1,
   (C9_numeric_zero_cases.2.2.1 ⟨['k'], [' ']⟩ ['y'] (by decide)).1,
   C9_numeric_zero_cases.2.2.2.1 ⟨['k'], ['x']⟩ [] (by decide),
   C9_numeric_zero_cases.2.2.2.2.1 ⟨['k'], ['-', '1']⟩ [] (by decide),
   C9_numeric_zero_cases.2.2.2.2.2.1 ⟨['k'], ['9', '2', '2', '3', '3', '7', '2', '0', '3',
     '6', '8', '5', '4', '7', '7', '5', '8', '0', '7']⟩ [] (by decide),
   C9_numeric_zero_cases.2.2.2.2.2.2 ⟨['k'], ['i', 'n', 'f']⟩ [] (by decide)⟩
